import Mathlib

set_option maxRecDepth 16384

/-!
Verification of the `pyth` Go client (Blockdaemon pyth-go).

This file gives a shallow embedding of the binary account / instruction
codec, the event-dispatch diff logic and the linked-list account traversals
of the repository, and proves (or refutes) the frozen specification claims
about them.

Conventions of the embedding:
* Go byte slices are `List Nat` whose entries are byte values; encoders
  always produce values `< 256` (via `% 256`).
* Go fixed-width unsigned integers (`uint8/32/64`) are `Nat`; signed
  integers (`int32/64`) are `Int`; wrap-around is made explicit with
  `% 2^w` where the code can overflow.
* `solana.PublicKey` (an opaque 32-byte value compared only for equality
  and zero-ness) is a `Nat` standing for its 32-byte little-endian value;
  the zero key is `0`.
* Fallible Go functions returning `(T, error)` become `Option` /
  `Except`-valued functions.
-/

namespace Pyth

/-! ## Byte-level primitives (little-endian wire format) -/

/-- One byte of an encoder output: the low 8 bits of `x`. -/
def u8 (x : Nat) : List Nat := [x % 256]

/-- Little-endian encoding of `v` on `w` bytes (low byte first), as the
`gagliardetto/binary` encoder writes fixed-width unsigned integers. -/
def leBytes : Nat → Nat → List Nat
  | 0, _ => []
  | w + 1, v => (v % 256) :: leBytes w (v / 256)

def u32le (v : Nat) : List Nat := leBytes 4 v

def u64le (v : Nat) : List Nat := leBytes 8 v

/-- The 32-byte little-endian encoding of a public key value. -/
def key32le (v : Nat) : List Nat := leBytes 32 v

/-- Two's-complement encoding of a signed 32-bit value. -/
def i32le (v : Int) : List Nat := leBytes 4 (v % (2 ^ 32 : Nat)).toNat

/-- Two's-complement encoding of a signed 64-bit value. -/
def i64le (v : Int) : List Nat := leBytes 8 (v % (2 ^ 64 : Nat)).toNat

/-- Read `w` bytes little-endian from the front of the buffer, as the
`gagliardetto/binary` decoder reads fixed-width unsigned integers;
`none` when fewer than `w` bytes remain. -/
def readLE : Nat → List Nat → Option (Nat × List Nat)
  | 0, r => some (0, r)
  | _ + 1, [] => none
  | w + 1, b :: r =>
    match readLE w r with
    | none => none
    | some (v, rest) => some (b + 256 * v, rest)

def readU32 (d : List Nat) : Option (Nat × List Nat) := readLE 4 d

def readU64 (d : List Nat) : Option (Nat × List Nat) := readLE 8 d

def readKey (d : List Nat) : Option (Nat × List Nat) := readLE 32 d

/-- Reinterpret an unsigned 32-bit value as two's-complement `int32`. -/
def toInt32 (n : Nat) : Int :=
  if n < 2 ^ 31 then (n : Int) else (n : Int) - 2 ^ 32

/-- Reinterpret an unsigned 64-bit value as two's-complement `int64`. -/
def toInt64 (n : Nat) : Int :=
  if n < 2 ^ 63 then (n : Int) else (n : Int) - 2 ^ 64

def readI32 (d : List Nat) : Option (Int × List Nat) :=
  match readU32 d with
  | none => none
  | some (v, r) => some (toInt32 v, r)

def readI64 (d : List Nat) : Option (Int × List Nat) :=
  match readU64 d with
  | none => none
  | some (v, r) => some (toInt64 v, r)

/-- Read a fixed-size raw byte array (Go `[n]byte` field decode). -/
def readBytes : Nat → List Nat → Option (List Nat × List Nat)
  | 0, r => some ([], r)
  | _ + 1, [] => none
  | n + 1, b :: r =>
    match readBytes n r with
    | none => none
    | some (xs, rest) => some (b :: xs, rest)

theorem leBytes_length (w v : Nat) : (leBytes w v).length = w := by
  induction w generalizing v with
  | zero => rfl
  | succ w ih => simp [leBytes, ih]

theorem readLE_append (w v : Nat) (rest : List Nat) :
    readLE w (leBytes w v ++ rest) = some (v % 256 ^ w, rest) := by
  induction w generalizing v with
  | zero => simp [readLE, leBytes, Nat.mod_one]
  | succ w ih =>
    have key : v % 256 ^ (w + 1) = v % 256 + 256 * (v / 256 % 256 ^ w) := by
      have h1 : (256 : Nat) ^ (w + 1) = 256 * 256 ^ w := by ring
      have h2 : (256 : Nat) ∣ 256 * 256 ^ w := ⟨256 ^ w, rfl⟩
      rw [h1]
      conv_lhs => rw [← Nat.div_add_mod (v % (256 * 256 ^ w)) 256]
      rw [Nat.mod_mul_right_div_self, Nat.mod_mod_of_dvd v h2]
      ring
    simp only [leBytes, List.cons_append, readLE, List.append_eq, ih, key]

theorem readLE_append_of_lt (w v : Nat) (rest : List Nat) (h : v < 256 ^ w) :
    readLE w (leBytes w v ++ rest) = some (v, rest) := by
  rw [readLE_append, Nat.mod_eq_of_lt h]

theorem readBytes_append (xs rest : List Nat) :
    readBytes xs.length (xs ++ rest) = some (xs, rest) := by
  induction xs with
  | nil => simp [readBytes]
  | cons b xs ih => simp [readBytes, ih]

/-! ## Attribute list codec (`attrs.go`)

A Go string here is a byte list (`List Nat`).  `readLPString` mirrors the
Go function of the same name operating on a `bytes.Reader`: the reader is
the list of not-yet-consumed bytes.  `bytes.Reader.ReadByte` / `Read`
return `io.EOF` only when the reader is already exhausted; a `Read` into a
larger buffer than what remains copies the remaining bytes, leaves the
rest of the buffer zero-filled, and reports no error.  The Go code does
not check the number of bytes `Read` copied. -/

/-- Result of `readLPString`: the string read, the byte count `n` it
reported, and the remaining reader content; `none` is a returned error. -/
def readLPString (data : List Nat) : Option (List Nat × Nat × List Nat) :=
  match data with
  | [] => none
  | strLen :: rest =>
    if rest.isEmpty then
      none
    else
      let n := min strLen rest.length
      some (rest.take n ++ List.replicate (strLen - n) 0, n + 1, rest.drop n)

theorem readLPString_rest_lt (data s : List Nat) (n : Nat) (r : List Nat)
    (h : readLPString data = some (s, n, r)) : r.length < data.length := by
  match data with
  | [] => simp [readLPString] at h
  | strLen :: rest =>
    simp only [readLPString] at h
    split at h
    · exact absurd h (by simp)
    · simp only [Option.some.injEq, Prod.mk.injEq] at h
      obtain ⟨-, -, h3⟩ := h
      subst h3
      simp only [List.length_drop, List.length_cons]
      omega

/-- The loop body of `ReadAttrsMapFromBinary` (`for rd.Len() > 0 { ... }`),
made structurally recursive on a fuel bound; with `fuel ≥ data.length` the
fuel never runs out, since every iteration consumes at least one byte. -/
def readAttrsLoop : Nat → List Nat → Option (List (List Nat × List Nat) × Nat)
  | _, [] => some ([], 0)
  | 0, _ :: _ => none
  | fuel + 1, b :: ds =>
    match readLPString (b :: ds) with
    | none => none
    | some (key, n2, r1) =>
      match readLPString r1 with
      | none => none
      | some (val, n3, r2) =>
        match readAttrsLoop fuel r2 with
        | none => none
        | some (pairs, n) => some ((key, val) :: pairs, n2 + n3 + n)

/-- Go `ReadAttrsMapFromBinary` consumes all bytes of the region, pairing a
length-prefixed key with a length-prefixed value per iteration; the
returned `Nat` is the byte count the Go function reports.  An error during
an iteration makes the Go function return that error (the partially
accumulated pairs are discarded by every caller). -/
def ReadAttrsMapFromBinary (data : List Nat) :
    Option (List (List Nat × List Nat) × Nat) :=
  readAttrsLoop data.length data

theorem readAttrsLoop_fuel_irrel (f1 : Nat) :
    ∀ (f2 : Nat) (data : List Nat), data.length ≤ f1 → data.length ≤ f2 →
      readAttrsLoop f1 data = readAttrsLoop f2 data := by
  induction f1 with
  | zero =>
    intro f2 data h1 _
    have : data = [] := List.length_eq_zero.mp (Nat.le_zero.mp h1)
    subst this
    cases f2 <;> rfl
  | succ f1 ih =>
    intro f2 data h1 h2
    match data with
    | [] => cases f2 <;> rfl
    | b :: ds =>
      match f2 with
      | 0 => simp at h2
      | f2 + 1 =>
        simp only [readAttrsLoop]
        cases hk : readLPString (b :: ds) with
        | none => rfl
        | some v1 =>
          obtain ⟨key, n2, r1⟩ := v1
          dsimp only
          cases hv : readLPString r1 with
          | none => rfl
          | some v2 =>
            obtain ⟨val, n3, r2⟩ := v2
            dsimp only
            have hr1 : r1.length < (b :: ds).length := readLPString_rest_lt _ _ _ _ hk
            have hr2 : r2.length < r1.length := readLPString_rest_lt _ _ _ _ hv
            simp only [List.length_cons] at h1 h2 hr1
            rw [ih f2 r2 (by omega) (by omega)]

/-- Go `writeLPString`: length byte followed by the raw bytes; a hard error
for strings longer than 255 bytes, before anything is written. -/
def writeLPString (s : List Nat) : Option (List Nat) :=
  if s.length > 255 then none else some (s.length :: s)

/-- Go `AttrsMap.MarshalBinary`: key/value pairs in order, each
length-prefixed. -/
def attrsMarshal : List (List Nat × List Nat) → Option (List Nat)
  | [] => some []
  | (k, v) :: rest =>
    match writeLPString k, writeLPString v, attrsMarshal rest with
    | some bk, some bv, some brest => some (bk ++ bv ++ brest)
    | _, _, _ => none

/-- Go `AttrsMap` (`attrs.go`): string key/value pairs with stable order. -/
structure AttrsMap where
  pairs : List (List Nat × List Nat)
deriving DecidableEq, Repr

/-- Go `AttrsMap.UnmarshalBinary`: decode, discarding the byte count. -/
def AttrsMap.unmarshalBinary (data : List Nat) : Option AttrsMap :=
  match ReadAttrsMapFromBinary data with
  | none => none
  | some (prs, _) => some ⟨prs⟩

theorem readLPString_exact (s t : List Nat) (hne : s ++ t ≠ []) :
    readLPString (s.length :: (s ++ t)) = some (s, s.length + 1, t) := by
  simp only [readLPString, List.isEmpty_iff, hne, if_false]
  have hmin : min s.length (s ++ t).length = s.length := by
    simp [List.length_append]
  rw [hmin, List.take_left, List.drop_left]
  simp

theorem readLPString_truncated (L : Nat) (rest : List Nat) (hne : rest ≠ [])
    (hlt : rest.length < L) :
    readLPString (L :: rest) =
      some (rest ++ List.replicate (L - rest.length) 0, rest.length + 1, []) := by
  simp only [readLPString, List.isEmpty_iff, hne, if_false]
  have hmin : min L rest.length = rest.length := by omega
  rw [hmin, List.take_length, List.drop_length]

theorem readLPString_none_iff (L : Nat) (rest : List Nat) :
    readLPString (L :: rest) = none ↔ rest = [] := by
  simp only [readLPString, List.isEmpty_iff]
  split
  · simp [*]
  · simp [*]

/-- Unfolding one iteration of the attribute decode loop. -/
theorem readAttrsMap_step (b : Nat) (ds : List Nat) :
    ReadAttrsMapFromBinary (b :: ds) =
      match readLPString (b :: ds) with
      | none => none
      | some (key, n2, r1) =>
        match readLPString r1 with
        | none => none
        | some (val, n3, r2) =>
          match ReadAttrsMapFromBinary r2 with
          | none => none
          | some (pairs, n) => some ((key, val) :: pairs, n2 + n3 + n) := by
  show readAttrsLoop (b :: ds).length (b :: ds) = _
  simp only [List.length_cons]
  simp only [readAttrsLoop]
  cases hk : readLPString (b :: ds) with
  | none => rfl
  | some v1 =>
    obtain ⟨key, n2, r1⟩ := v1
    dsimp only
    cases hv : readLPString r1 with
    | none => rfl
    | some v2 =>
      obtain ⟨val, n3, r2⟩ := v2
      dsimp only
      have hr1 := readLPString_rest_lt _ _ _ _ hk
      have hr2 := readLPString_rest_lt _ _ _ _ hv
      simp only [List.length_cons] at hr1
      rw [readAttrsLoop_fuel_irrel ds.length r2.length r2 (by omega) (Nat.le_refl _)]
      rfl

theorem readAttrsMap_nil : ReadAttrsMapFromBinary [] = some ([], 0) := rfl

/-- Go `attrsMarshal` distributes over append. -/
theorem attrsMarshal_append (ps1 ps2 : List (List Nat × List Nat)) :
    attrsMarshal (ps1 ++ ps2) =
      match attrsMarshal ps1, attrsMarshal ps2 with
      | some b1, some b2 => some (b1 ++ b2)
      | _, _ => none := by
  induction ps1 with
  | nil =>
    simp only [List.nil_append, attrsMarshal]
    cases attrsMarshal ps2 <;> rfl
  | cons kv ps1 ih =>
    obtain ⟨k, v⟩ := kv
    cases hk : writeLPString k with
    | none => simp [attrsMarshal, hk]
    | some bk =>
      cases hv : writeLPString v with
      | none => simp [attrsMarshal, hk, hv]
      | some bv =>
        cases h1 : attrsMarshal ps1 with
        | none =>
          cases h2 : attrsMarshal ps2 with
          | none => simp [attrsMarshal, hk, hv, ih, h1, h2]
          | some b2 => simp [attrsMarshal, hk, hv, ih, h1, h2]
        | some b1 =>
          cases h2 : attrsMarshal ps2 with
          | none => simp [attrsMarshal, hk, hv, ih, h1, h2]
          | some b2 => simp [attrsMarshal, hk, hv, ih, h1, h2]

/-- Splicing: decoding a buffer that starts with the exact encoding of the
pair list `ps` continues into the nonempty tail `t`, prepending `ps` to
whatever `t` decodes to and adding the encoded byte count. -/
theorem readAttrsMap_marshal_append (ps : List (List Nat × List Nat)) :
    ∀ (bs t : List Nat), attrsMarshal ps = some bs → t ≠ [] →
      ReadAttrsMapFromBinary (bs ++ t) =
        (ReadAttrsMapFromBinary t).map (fun pr => (ps ++ pr.1, bs.length + pr.2)) := by
  induction ps with
  | nil =>
    intro bs t hm ht
    simp only [attrsMarshal, Option.some.injEq] at hm
    subst hm
    rw [List.nil_append]
    cases hdec : ReadAttrsMapFromBinary t with
    | none => rfl
    | some pr => simp
  | cons kv ps ih =>
    intro bs t hm ht
    obtain ⟨k, v⟩ := kv
    simp only [attrsMarshal, writeLPString] at hm
    by_cases hk : k.length > 255
    · simp [hk] at hm
    by_cases hv : v.length > 255
    · simp [hk, hv] at hm
    cases hrest : attrsMarshal ps with
    | none => simp [hk, hv, hrest] at hm
    | some brest =>
      simp only [hk, if_false, hv, hrest, Option.some.injEq] at hm
      subst hm
      have hshape : (k.length :: k ++ (v.length :: v) ++ brest) ++ t =
          k.length :: (k ++ (v.length :: (v ++ (brest ++ t)))) := by
        simp
      rw [hshape, readAttrsMap_step]
      rw [readLPString_exact k (v.length :: (v ++ (brest ++ t))) (by simp)]
      dsimp only
      rw [readLPString_exact v (brest ++ t) (by simp [ht])]
      dsimp only
      rw [ih brest t hrest ht]
      cases hdec : ReadAttrsMapFromBinary t with
      | none => rfl
      | some pr =>
        obtain ⟨prs, n⟩ := pr
        simp [List.length_append]
        omega

/-- Decode of the exact encoding of a single pair whose value is
nonempty. -/
theorem readAttrsMap_single_pair (k v : List Nat) (hv : v ≠ []) :
    ReadAttrsMapFromBinary ((k.length :: k) ++ (v.length :: v)) =
      some ([(k, v)], k.length + v.length + 2) := by
  have hshape : (k.length :: k) ++ (v.length :: v) = k.length :: (k ++ (v.length :: v)) := by
    simp
  rw [hshape, readAttrsMap_step]
  rw [readLPString_exact k (v.length :: v) (by simp)]
  dsimp only
  rw [show v.length :: v = v.length :: (v ++ []) by simp]
  rw [readLPString_exact v [] (by simp [hv])]
  dsimp only
  rw [readAttrsMap_nil]
  simp
  omega

/-- Claim C5 counterexample: the region `[1, 107, 5, 118]` declares a
1-byte key "k" and then a value of declared length 5 with only one byte
remaining; attribute decoding succeeds without any error and returns the
value silently padded with zero bytes to the declared length, instead of a
truncation error. -/
theorem attrs_truncation_not_an_error :
    ReadAttrsMapFromBinary [1, 107, 5, 118] =
      some ([([107], [118, 0, 0, 0, 0])], 4) := by decide

/-- Claim C5 (amended): a length prefix that overruns the region is not by
itself an error.  A string read returns an error exactly when the region
is already exhausted after the length byte; and when the final value of an
attribute region declares length `L` with only `0 < r < L` bytes
remaining, decoding the whole region succeeds, returning those `r` bytes
silently zero-padded to length `L`. -/
theorem attrs_truncated_final_value_padded
    (ps : List (List Nat × List Nat)) (bs k vshort : List Nat) (L : Nat)
    (hm : attrsMarshal ps = some bs) (hne : vshort ≠ [])
    (hlt : vshort.length < L) :
    (∀ rest : List Nat, readLPString (L :: rest) = none ↔ rest = []) ∧
    ReadAttrsMapFromBinary (bs ++ ((k.length :: k) ++ (L :: vshort))) =
      some (ps ++ [(k, vshort ++ List.replicate (L - vshort.length) 0)],
            bs.length + k.length + vshort.length + 2) := by
  refine ⟨fun rest => readLPString_none_iff L rest, ?_⟩
  rw [readAttrsMap_marshal_append ps bs ((k.length :: k) ++ (L :: vshort)) hm (by simp)]
  have hshape : (k.length :: k) ++ (L :: vshort) = k.length :: (k ++ (L :: vshort)) := by
    simp
  rw [hshape, readAttrsMap_step]
  rw [readLPString_exact k (L :: vshort) (by simp)]
  dsimp only
  rw [readLPString_truncated L vshort hne hlt]
  dsimp only
  rw [readAttrsMap_nil]
  simp
  omega

/-- Claim C6 counterexample: the attribute map `[("a", "")]` (one pair,
empty value) has keys and values of at most 255 bytes and encodes to
`[1, 97, 0]`, but decoding that encoding fails (the final zero-length
value read hits the exhausted reader and reports EOF), so
`decode (encode m) ≠ m`. -/
theorem attrs_roundtrip_fails_on_trailing_empty_value :
    attrsMarshal [([97], [])] = some [1, 97, 0] ∧
      ReadAttrsMapFromBinary [1, 97, 0] = none := by decide

/-- Claim C6 (amended): for every attribute map whose keys and values are
at most 255 bytes long (that is, whose encoding succeeds) AND whose final
value is nonempty (or which is empty), decoding the encoding returns
exactly the original pairs, order preserved, consuming the full encoded
length. -/
theorem attrs_roundtrip (ps : List (List Nat × List Nat)) (bs : List Nat)
    (hm : attrsMarshal ps = some bs)
    (hlast : ps.getLast?.all (fun kv => !kv.2.isEmpty) = true) :
    ReadAttrsMapFromBinary bs = some (ps, bs.length) := by
  rcases List.eq_nil_or_concat ps with hnil | ⟨ps0, kv, hconcat⟩
  · subst hnil
    simp only [attrsMarshal, Option.some.injEq] at hm
    subst hm
    rfl
  · obtain ⟨k, v⟩ := kv
    rw [List.concat_eq_append] at hconcat
    subst hconcat
    have hv : v ≠ [] := by
      rw [List.getLast?_concat] at hlast
      simpa [List.isEmpty_iff] using hlast
    rw [attrsMarshal_append ps0 [(k, v)]] at hm
    cases hm0 : attrsMarshal ps0 with
    | none => rw [hm0] at hm; exact absurd hm (by simp)
    | some bs0 =>
      cases hm1 : attrsMarshal [(k, v)] with
      | none => rw [hm0, hm1] at hm; exact absurd hm (by simp)
      | some benc =>
        rw [hm0, hm1] at hm
        simp only [Option.some.injEq] at hm
        subst hm
        -- compute the single-pair encoding
        have hk255 : ¬ k.length > 255 := by
          by_contra hgt
          simp [attrsMarshal, writeLPString, hgt] at hm1
        have hv255 : ¬ v.length > 255 := by
          by_contra hgt
          simp [attrsMarshal, writeLPString, hk255, hgt] at hm1
        have hbenc : benc = (k.length :: k) ++ (v.length :: v) := by
          simp only [attrsMarshal, writeLPString, hk255, if_false, hv255] at hm1
          simp only [Option.some.injEq] at hm1
          rw [← hm1]
          simp
        subst hbenc
        rw [readAttrsMap_marshal_append ps0 bs0 _ hm0 (by simp)]
        rw [readAttrsMap_single_pair k v hv]
        simp [List.length_append]
        omega

/-- Witness for the amended C5 theorem at a concrete input: no pairs
before the truncated trailer, key "k", declared value length 5 with one
byte 118 present. -/
theorem attrs_truncated_final_value_padded_witness :
    attrsMarshal [] = some [] ∧ ([118] : List Nat) ≠ [] ∧ ([118] : List Nat).length < 5 ∧
    ((∀ rest : List Nat, readLPString (5 :: rest) = none ↔ rest = []) ∧
      ReadAttrsMapFromBinary (([] : List Nat) ++
          ((([107] : List Nat).length :: [107]) ++ (5 :: [118]))) =
        some (([] : List (List Nat × List Nat)) ++
            [([107], [118] ++ List.replicate (5 - ([118] : List Nat).length) 0)],
          ([] : List Nat).length + ([107] : List Nat).length + ([118] : List Nat).length + 2)) := by
  refine ⟨by decide, by decide, by decide, ?_⟩
  exact attrs_truncated_final_value_padded [] [] [107] [118] 5 (by decide) (by decide) (by decide)

/-- Witness for the amended C6 round-trip theorem at the concrete map
`[("k", "v")]`. -/
theorem attrs_roundtrip_witness :
    attrsMarshal [([107], [118])] = some [1, 107, 1, 118] ∧
    ([([107], [118])] : List (List Nat × List Nat)).getLast?.all
      (fun kv => !kv.2.isEmpty) = true ∧
    ReadAttrsMapFromBinary [1, 107, 1, 118] = some ([([107], [118])], 4) := by
  refine ⟨by decide, by decide, ?_⟩
  have h := attrs_roundtrip [([107], [118])] [1, 107, 1, 118] (by decide) (by decide)
  simpa using h

/-! ## Account header (`AccountHeader`, `Valid`, `PeekAccount`) -/

/-- Magic is the 32-bit number prefixed on each account (0xa1b2c3d4). -/
def Magic : Nat := 0xa1b2c3d4

/-- V2 identifies the version 2 data format stored in an account. -/
def V2 : Nat := 2

def AccountTypeUnknown : Nat := 0
def AccountTypeMapping : Nat := 1
def AccountTypeProduct : Nat := 2
def AccountTypePrice : Nat := 3

/-- AccountHeader is the 16-byte header at the beginning of each account. -/
structure AccountHeader where
  Magic : Nat
  Version : Nat
  AccountType : Nat
  Size : Nat
deriving DecidableEq, Repr

/-- Go `AccountHeader.Valid` performs basic checks on an account. -/
def AccountHeader.Valid (h : AccountHeader) : Bool :=
  h.Magic == Pyth.Magic && h.Version == V2 && decide (h.Size < 65536)

/-- Decode the 16-byte header from the front of an account buffer. -/
def readHeader (d : List Nat) : Option (AccountHeader × List Nat) :=
  match readU32 d with
  | none => none
  | some (magic, d1) =>
    match readU32 d1 with
    | none => none
    | some (version, d2) =>
      match readU32 d2 with
      | none => none
      | some (acctype, d3) =>
        match readU32 d3 with
        | none => none
        | some (size, d4) => some (⟨magic, version, acctype, size⟩, d4)

/-- Go `PeekAccount`: the account type when the header decodes and is valid,
`AccountTypeUnknown` otherwise; never an error. -/
def PeekAccount (data : List Nat) : Nat :=
  match readHeader data with
  | none => AccountTypeUnknown
  | some (header, _) =>
    if header.Valid then header.AccountType else AccountTypeUnknown

/-- Claim C3: for every account header `h`, `Valid h` is true exactly when
the magic number matches the fixed constant, the version equals 2, and the
declared size is below 65536; it is false when any one condition fails. -/
theorem valid_iff_magic_version_size (h : AccountHeader) :
    h.Valid = true ↔ (h.Magic = Pyth.Magic ∧ h.Version = V2 ∧ h.Size < 65536) := by
  simp [AccountHeader.Valid, and_assoc]

/-! ## Full account decoders (`types.go` — mapping / product / price)

Each `UnmarshalBinary` first runs the generic little-endian struct decoder
(`bin.NewBinDecoder(buf).Decode(...)`) over the record's flat layout, then
checks `AccountHeader.Valid`, then the declared account type.  The generic
decoder fails only on a truncated buffer and ignores trailing bytes. -/

inductive AccDecodeError
  | parseFail
  | invalidAccount
  | wrongType
  | attrsFail
deriving DecidableEq, Repr

instance exceptDecEq {ε α : Type} [DecidableEq ε] [DecidableEq α] :
    DecidableEq (Except ε α) := fun x y =>
  match x, y with
  | .error a, .error b => decidable_of_iff (a = b) (by simp)
  | .ok a, .ok b => decidable_of_iff (a = b) (by simp)
  | .error _, .ok _ => isFalse (by intro hc; exact Except.noConfusion hc)
  | .ok _, .error _ => isFalse (by intro hc; exact Except.noConfusion hc)

structure Ema where
  Val : Int
  Numer : Int
  Denom : Int
deriving DecidableEq, Repr

/-- Go `PriceInfo` contains a price and confidence at a specific slot. -/
structure PriceInfo where
  Price : Int
  Conf : Nat
  Status : Nat
  CorpAct : Nat
  PubSlot : Nat
deriving DecidableEq, Repr

def PriceStatusUnknown : Nat := 0
def PriceStatusTrading : Nat := 1
def PriceStatusHalted : Nat := 2
def PriceStatusAuction : Nat := 3

/-- Go `PriceComp`: price and confidence contributed by a specific publisher. -/
structure PriceComp where
  Publisher : Nat
  Agg : PriceInfo
  Latest : PriceInfo
deriving DecidableEq, Repr

structure PriceAccount where
  header : AccountHeader
  PriceType : Nat
  Exponent : Int
  Num : Nat
  NumQt : Nat
  LastSlot : Nat
  ValidSlot : Nat
  Twap : Ema
  Twac : Ema
  Drv1 : Int
  Drv2 : Int
  Product : Nat
  Next : Nat
  PrevSlot : Nat
  PrevPrice : Int
  PrevConf : Nat
  Drv3 : Int
  Agg : PriceInfo
  Components : List PriceComp
deriving DecidableEq, Repr

structure MappingAccount where
  header : AccountHeader
  Num : Nat
  Pad1 : Nat
  Next : Nat
  Products : List Nat
deriving DecidableEq, Repr

/-- Go `ProductAccountHeader` (`part_007`): account header plus the first
price key. -/
structure ProductAccountHeader where
  header : AccountHeader
  FirstPrice : Nat
deriving DecidableEq, Repr

/-- The binary offset of the attrs data within `RawProductAccount`. -/
def ProductAccountHeaderLen : Nat := 48

structure RawProductAccount where
  productHeader : ProductAccountHeader
  AttrsData : List Nat
deriving DecidableEq, Repr

structure ProductAccount where
  productHeader : ProductAccountHeader
  Attrs : AttrsMap
deriving DecidableEq, Repr

def readEma (d : List Nat) : Option (Ema × List Nat) :=
  match readI64 d with
  | none => none
  | some (v, d1) =>
    match readI64 d1 with
    | none => none
    | some (nu, d2) =>
      match readI64 d2 with
      | none => none
      | some (de, d3) => some (⟨v, nu, de⟩, d3)

def readPriceInfo (d : List Nat) : Option (PriceInfo × List Nat) :=
  match readI64 d with
  | none => none
  | some (price, d1) =>
    match readU64 d1 with
    | none => none
    | some (conf, d2) =>
      match readU32 d2 with
      | none => none
      | some (status, d3) =>
        match readU32 d3 with
        | none => none
        | some (corpAct, d4) =>
          match readU64 d4 with
          | none => none
          | some (pubSlot, d5) => some (⟨price, conf, status, corpAct, pubSlot⟩, d5)

def readPriceComp (d : List Nat) : Option (PriceComp × List Nat) :=
  match readKey d with
  | none => none
  | some (pub, d1) =>
    match readPriceInfo d1 with
    | none => none
    | some (agg, d2) =>
      match readPriceInfo d2 with
      | none => none
      | some (latest, d3) => some (⟨pub, agg, latest⟩, d3)

def readPriceComps : Nat → List Nat → Option (List PriceComp × List Nat)
  | 0, d => some ([], d)
  | n + 1, d =>
    match readPriceComp d with
    | none => none
    | some (c, d1) =>
      match readPriceComps n d1 with
      | none => none
      | some (cs, d2) => some (c :: cs, d2)

def readKeys : Nat → List Nat → Option (List Nat × List Nat)
  | 0, d => some ([], d)
  | n + 1, d =>
    match readKey d with
    | none => none
    | some (k, d1) =>
      match readKeys n d1 with
      | none => none
      | some (ks, d2) => some (k :: ks, d2)

/-- Raw struct decode of `RawProductAccount`: header, first-price key,
464-byte attrs array. -/
def decodeProductRaw (buf : List Nat) : Option (RawProductAccount × List Nat) :=
  match readHeader buf with
  | none => none
  | some (h, d1) =>
    match readKey d1 with
    | none => none
    | some (fp, d2) =>
      match readBytes 464 d2 with
      | none => none
      | some (attrs, d3) => some (⟨⟨h, fp⟩, attrs⟩, d3)

/-- Go `ProductAccount.UnmarshalBinary` (`part_007`): raw decode, header
validity, type check, then attrs decode over the size-clipped region. -/
def ProductAccount.UnmarshalBinary (buf : List Nat) :
    Except AccDecodeError ProductAccount :=
  match decodeProductRaw buf with
  | none => .error .parseFail
  | some (raw, _) =>
    if ¬ raw.productHeader.header.Valid then .error .invalidAccount
    else if raw.productHeader.header.AccountType ≠ AccountTypeProduct then .error .wrongType
    else
      -- Length of attrs is determined by size value in header.
      let data := raw.AttrsData
      let maxSize : Int := (raw.productHeader.header.Size : Int) - ProductAccountHeaderLen
      let data := if maxSize > 0 ∧ (data.length : Int) > maxSize
        then data.take maxSize.toNat else data
      match AttrsMap.unmarshalBinary data with
      | none => .error .attrsFail
      | some attrs => .ok ⟨raw.productHeader, attrs⟩

/-- Raw struct decode of `PriceAccount` (3312 bytes). -/
def decodePriceRaw (buf : List Nat) : Option (PriceAccount × List Nat) :=
  match readHeader buf with
  | none => none
  | some (h, d1) =>
    match readU32 d1 with
    | none => none
    | some (priceType, d2) =>
    match readI32 d2 with
    | none => none
    | some (exponent, d3) =>
    match readU32 d3 with
    | none => none
    | some (num, d4) =>
    match readU32 d4 with
    | none => none
    | some (numQt, d5) =>
    match readU64 d5 with
    | none => none
    | some (lastSlot, d6) =>
    match readU64 d6 with
    | none => none
    | some (validSlot, d7) =>
    match readEma d7 with
    | none => none
    | some (twap, d8) =>
    match readEma d8 with
    | none => none
    | some (twac, d9) =>
    match readI64 d9 with
    | none => none
    | some (drv1, d10) =>
    match readI64 d10 with
    | none => none
    | some (drv2, d11) =>
    match readKey d11 with
    | none => none
    | some (product, d12) =>
    match readKey d12 with
    | none => none
    | some (next, d13) =>
    match readU64 d13 with
    | none => none
    | some (prevSlot, d14) =>
    match readI64 d14 with
    | none => none
    | some (prevPrice, d15) =>
    match readU64 d15 with
    | none => none
    | some (prevConf, d16) =>
    match readI64 d16 with
    | none => none
    | some (drv3, d17) =>
    match readPriceInfo d17 with
    | none => none
    | some (agg, d18) =>
    match readPriceComps 32 d18 with
    | none => none
    | some (comps, d19) =>
      some (⟨h, priceType, exponent, num, numQt, lastSlot, validSlot, twap, twac,
             drv1, drv2, product, next, prevSlot, prevPrice, prevConf, drv3,
             agg, comps⟩, d19)

/-- Go `PriceAccount.UnmarshalBinary`: raw decode, header validity, type. -/
def PriceAccount.UnmarshalBinary (buf : List Nat) :
    Except AccDecodeError PriceAccount :=
  match decodePriceRaw buf with
  | none => .error .parseFail
  | some (p, _) =>
    if ¬ p.header.Valid then .error .invalidAccount
    else if p.header.AccountType ≠ AccountTypePrice then .error .wrongType
    else .ok p

/-- Raw struct decode of `MappingAccount` (20536 bytes). -/
def decodeMappingRaw (buf : List Nat) : Option (MappingAccount × List Nat) :=
  match readHeader buf with
  | none => none
  | some (h, d1) =>
    match readU32 d1 with
    | none => none
    | some (num, d2) =>
    match readU32 d2 with
    | none => none
    | some (pad1, d3) =>
    match readKey d3 with
    | none => none
    | some (next, d4) =>
    match readKeys 640 d4 with
    | none => none
    | some (products, d5) => some (⟨h, num, pad1, next, products⟩, d5)

/-- Go `MappingAccount.UnmarshalBinary`: raw decode, header validity, type. -/
def MappingAccount.UnmarshalBinary (buf : List Nat) :
    Except AccDecodeError MappingAccount :=
  match decodeMappingRaw buf with
  | none => .error .parseFail
  | some (m, _) =>
    if ¬ m.header.Valid then .error .invalidAccount
    else if m.header.AccountType ≠ AccountTypeMapping then .error .wrongType
    else .ok m

/-- Go `MappingAccount.ProductKeys`: the populated product keys, `nil` when
the populated count exceeds the capacity. -/
def MappingAccount.ProductKeys (m : MappingAccount) : List Nat :=
  if m.Num > m.Products.length then [] else m.Products.take m.Num

theorem readU32_append (v : Nat) (rest : List Nat) (h : v < 2 ^ 32) :
    readU32 (u32le v ++ rest) = some (v, rest) :=
  readLE_append_of_lt 4 v rest (by norm_num at h ⊢; exact h)

theorem readKey_append (v : Nat) (rest : List Nat) (h : v < 2 ^ 256) :
    readKey (key32le v ++ rest) = some (v, rest) :=
  readLE_append_of_lt 32 v rest (by norm_num at h ⊢; exact h)

theorem readBytes_exact (xs : List Nat) : readBytes xs.length xs = some (xs, []) := by
  simpa using readBytes_append xs []

theorem readHeader_mk (m v t s : Nat) (rest : List Nat)
    (hm : m < 2 ^ 32) (hv : v < 2 ^ 32) (ht : t < 2 ^ 32) (hs : s < 2 ^ 32) :
    readHeader (u32le m ++ (u32le v ++ (u32le t ++ (u32le s ++ rest)))) =
      some (⟨m, v, t, s⟩, rest) := by
  unfold readHeader
  rw [readU32_append m _ hm]
  dsimp only
  rw [readU32_append v _ hv]
  dsimp only
  rw [readU32_append t _ ht]
  dsimp only
  rw [readU32_append s _ hs]

/-- The 512-byte wire image of a product account: 16-byte header, 32-byte
first-price key, 464-byte attribute region. -/
def mkProductBytes (magic version acctype size fp : Nat) (attrs : List Nat) : List Nat :=
  u32le magic ++ (u32le version ++ (u32le acctype ++ (u32le size ++ (key32le fp ++ attrs))))

theorem decodeProductRaw_mk (magic version acctype size fp : Nat) (A : List Nat)
    (hm : magic < 2 ^ 32) (hv : version < 2 ^ 32) (ht : acctype < 2 ^ 32)
    (hs : size < 2 ^ 32) (hfp : fp < 2 ^ 256) (hA : A.length = 464) :
    decodeProductRaw (mkProductBytes magic version acctype size fp A) =
      some (⟨⟨⟨magic, version, acctype, size⟩, fp⟩, A⟩, []) := by
  unfold decodeProductRaw mkProductBytes
  rw [readHeader_mk magic version acctype size _ hm hv ht hs]
  dsimp only
  rw [readKey_append fp _ hfp]
  dsimp only
  rw [← hA, readBytes_exact]

/-- Claim C7: the three full account decoders fail closed.  Decoding
succeeds only with a valid header whose declared type matches the
requested record kind; and whenever the raw struct parses and the header
is valid but the type does not match, the decoder returns the wrong-type
error rather than a best-effort record. -/
theorem account_decoders_fail_closed :
    (∀ buf m, MappingAccount.UnmarshalBinary buf = .ok m →
        m.header.Valid = true ∧ m.header.AccountType = AccountTypeMapping) ∧
    (∀ buf p, ProductAccount.UnmarshalBinary buf = .ok p →
        p.productHeader.header.Valid = true ∧
        p.productHeader.header.AccountType = AccountTypeProduct) ∧
    (∀ buf p, PriceAccount.UnmarshalBinary buf = .ok p →
        p.header.Valid = true ∧ p.header.AccountType = AccountTypePrice) ∧
    (∀ buf m rest, decodeMappingRaw buf = some (m, rest) → m.header.Valid = true →
        m.header.AccountType ≠ AccountTypeMapping →
        MappingAccount.UnmarshalBinary buf = .error .wrongType) ∧
    (∀ buf raw rest, decodeProductRaw buf = some (raw, rest) →
        raw.productHeader.header.Valid = true →
        raw.productHeader.header.AccountType ≠ AccountTypeProduct →
        ProductAccount.UnmarshalBinary buf = .error .wrongType) ∧
    (∀ buf p rest, decodePriceRaw buf = some (p, rest) → p.header.Valid = true →
        p.header.AccountType ≠ AccountTypePrice →
        PriceAccount.UnmarshalBinary buf = .error .wrongType) := by
  refine ⟨?_, ?_, ?_, ?_, ?_, ?_⟩
  · intro buf m hok
    unfold MappingAccount.UnmarshalBinary at hok
    split at hok
    · exact absurd hok (by simp)
    · split at hok
      · exact absurd hok (by simp)
      · split at hok
        · exact absurd hok (by simp)
        · rename_i m0 r hvalid htype
          simp only [Except.ok.injEq] at hok
          subst hok
          exact ⟨by simpa using hvalid, by simpa using htype⟩
  · intro buf p hok
    unfold ProductAccount.UnmarshalBinary at hok
    split at hok
    · exact absurd hok (by simp)
    · rename_i raw r heq
      split at hok
      · exact absurd hok (by simp)
      · rename_i hvalid
        split at hok
        · exact absurd hok (by simp)
        · rename_i htype
          dsimp only at hok
          split at hok
          · exact absurd hok (by simp)
          · simp only [Except.ok.injEq] at hok
            subst hok
            exact ⟨by simpa using hvalid, by simpa using htype⟩
  · intro buf p hok
    unfold PriceAccount.UnmarshalBinary at hok
    split at hok
    · exact absurd hok (by simp)
    · split at hok
      · exact absurd hok (by simp)
      · split at hok
        · exact absurd hok (by simp)
        · rename_i p0 r hvalid htype
          simp only [Except.ok.injEq] at hok
          subst hok
          exact ⟨by simpa using hvalid, by simpa using htype⟩
  · intro buf m rest hdec hvalid htype
    unfold MappingAccount.UnmarshalBinary
    rw [hdec]
    simp [hvalid, htype]
  · intro buf raw rest hdec hvalid htype
    unfold ProductAccount.UnmarshalBinary
    rw [hdec]
    simp [hvalid, htype]
  · intro buf p rest hdec hvalid htype
    unfold PriceAccount.UnmarshalBinary
    rw [hdec]
    simp [hvalid, htype]

/-- Witness for C7 at a concrete input: a 512-byte buffer with a valid
header that declares account type 3 (price) fed to the product decoder is
rejected with the wrong-type error. -/
theorem account_decoders_fail_closed_witness :
    decodeProductRaw (mkProductBytes Magic V2 AccountTypePrice 48 0 (List.replicate 464 0)) =
      some (⟨⟨⟨Magic, V2, AccountTypePrice, 48⟩, 0⟩, List.replicate 464 0⟩, []) ∧
    (⟨Magic, V2, AccountTypePrice, 48⟩ : AccountHeader).Valid = true ∧
    AccountTypePrice ≠ AccountTypeProduct ∧
    ProductAccount.UnmarshalBinary
        (mkProductBytes Magic V2 AccountTypePrice 48 0 (List.replicate 464 0)) =
      .error .wrongType := by
  have h1 : decodeProductRaw (mkProductBytes Magic V2 AccountTypePrice 48 0 (List.replicate 464 0)) =
      some (⟨⟨⟨Magic, V2, AccountTypePrice, 48⟩, 0⟩, List.replicate 464 0⟩, []) :=
    decodeProductRaw_mk Magic V2 AccountTypePrice 48 0 (List.replicate 464 0)
      (by norm_num [Magic]) (by norm_num [V2]) (by norm_num [AccountTypePrice])
      (by norm_num) (by norm_num) (by rw [List.length_replicate])
  refine ⟨h1, by decide, by decide, ?_⟩
  exact account_decoders_fail_closed.2.2.2.2.1 _ _ _ h1 (by decide) (by decide)

/-- Claim C4 counterexample: a product account whose header declares
`size = 48` (zero attribute bytes) is NOT decoded with an empty attribute
map; the clipping `maxSize > 0` guard is skipped and the decoder parses
the full 464-byte capacity.  Here the all-zero capacity region makes the
decode fail outright (the final zero-length value read hits the exhausted
reader), even though decoding zero attribute bytes succeeds with an empty
map. -/
theorem product_size48_parses_full_region :
    ProductAccount.UnmarshalBinary
        (mkProductBytes Magic V2 AccountTypeProduct 48 0 (List.replicate 464 0)) =
      .error .attrsFail ∧
    AttrsMap.unmarshalBinary ([] : List Nat) = some ⟨[]⟩ := by
  constructor
  · decide
  · decide

/-- Claim C4 (amended): decoding a product account whose header declares
`size = 48 + N` with `1 ≤ N ≤ 464` parses exactly the first `N` bytes of
the attribute region (bytes beyond offset `N` are never interpreted); the
`N = 0` case is excluded because the clipping guard `maxSize > 0` then
skips clipping and the full 464-byte capacity is parsed. -/
theorem product_decode_clips_attrs_region (fp N : Nat) (A : List Nat)
    (hfp : fp < 2 ^ 256) (hA : A.length = 464) (h1 : 1 ≤ N) (h2 : N ≤ 464) :
    ProductAccount.UnmarshalBinary
        (mkProductBytes Magic V2 AccountTypeProduct (48 + N) fp A) =
      match AttrsMap.unmarshalBinary (A.take N) with
      | none => .error .attrsFail
      | some attrs => .ok ⟨⟨⟨Magic, V2, AccountTypeProduct, 48 + N⟩, fp⟩, attrs⟩ := by
  have hraw := decodeProductRaw_mk Magic V2 AccountTypeProduct (48 + N) fp A
    (by norm_num [Magic]) (by norm_num [V2]) (by norm_num [AccountTypeProduct])
    (by norm_num; omega) hfp hA
  unfold ProductAccount.UnmarshalBinary
  rw [hraw]
  have hvalid : (⟨Magic, V2, AccountTypeProduct, 48 + N⟩ : AccountHeader).Valid = true := by
    simp only [AccountHeader.Valid, Magic, V2]
    norm_num
    omega
  simp only [hvalid]
  norm_num [AccountTypeProduct, ProductAccountHeaderLen]
  have hclip : (if 0 < N ∧ N < A.length then A.take N else A) = A.take N := by
    by_cases hlt : N < A.length
    · rw [if_pos ⟨h1, hlt⟩]
    · have h464 : N = A.length := by omega
      rw [if_neg (by omega), h464, List.take_length]
  rw [hclip]

/-- Witness for the amended C4 theorem: `N = 4` with a 464-byte region
whose first four bytes encode the single pair ("a", "b"). -/
theorem product_decode_clips_attrs_region_witness :
    (7 : Nat) < 2 ^ 256 ∧ ([1, 97, 1, 98] ++ List.replicate 460 0 : List Nat).length = 464 ∧
    (1 : Nat) ≤ 4 ∧ (4 : Nat) ≤ 464 ∧
    ProductAccount.UnmarshalBinary
        (mkProductBytes Magic V2 AccountTypeProduct (48 + 4) 7
          ([1, 97, 1, 98] ++ List.replicate 460 0)) =
      match AttrsMap.unmarshalBinary (([1, 97, 1, 98] ++ List.replicate 460 0).take 4) with
      | none => .error .attrsFail
      | some attrs =>
        .ok ⟨⟨⟨Magic, V2, AccountTypeProduct, 48 + 4⟩, 7⟩, attrs⟩ := by
  have hlen : ([1, 97, 1, 98] ++ List.replicate 460 0 : List Nat).length = 464 := by
    rw [List.length_append, List.length_replicate]
    rfl
  refine ⟨by norm_num, hlen, by norm_num, by norm_num, ?_⟩
  exact product_decode_clips_attrs_region 7 4 ([1, 97, 1, 98] ++ List.replicate 460 0)
    (by norm_num) hlen (by norm_num) (by norm_num)

/-! ## Instruction codec (`instructions.go`) and builder (`builder.go`)

`Instruction.Data` encodes the 8-byte command header followed by the
payload's own encoding (the update-product payload uses the attribute-map
encoding, everything else the generic little-endian struct encoder).
`DecodeInstruction` decodes the header, validates it, selects the payload
shape and fixed account arity by command, checks the account count, then
decodes the payload. -/

def Instruction_InitMapping : Int := 0
def Instruction_AddMapping : Int := 1
def Instruction_AddProduct : Int := 2
def Instruction_UpdProduct : Int := 3
def Instruction_AddPrice : Int := 4
def Instruction_AddPublisher : Int := 5
def Instruction_DelPublisher : Int := 6
def Instruction_UpdPrice : Int := 7
def Instruction_UpdPriceNoFailOnError : Int := 8
def Instruction_AggPrice : Int := 9
def Instruction_InitPrice : Int := 10
def Instruction_InitTest : Int := 11
def Instruction_UpdTest : Int := 12
def Instruction_SetMinPub : Int := 13

/-- Number of different instruction types. -/
def instructionTypes : Int := 14

structure CommandHeader where
  Version : Nat
  Cmd : Int
deriving DecidableEq, Repr

/-- Go `CommandHeader.Valid`: supported version and known command range. -/
def CommandHeader.Valid (h : CommandHeader) : Bool :=
  h.Version == V2 && decide (0 ≤ h.Cmd) && decide (h.Cmd < instructionTypes)

def makeCommandHeader (cmd : Int) : CommandHeader := ⟨V2, cmd⟩

/-- The update-product payload: an attribute map (stable pair order). -/
structure CommandUpdProduct where
  Attrs : AttrsMap
deriving DecidableEq, Repr

structure CommandAddPrice where
  Exponent : Int
  PriceType : Nat
deriving DecidableEq, Repr

structure CommandInitPrice where
  Exponent : Int
  PriceType : Nat
deriving DecidableEq, Repr

structure CommandSetMinPub where
  MinPub : Nat
deriving DecidableEq, Repr

structure CommandAddPublisher where
  Publisher : Nat
deriving DecidableEq, Repr

structure CommandDelPublisher where
  Publisher : Nat
deriving DecidableEq, Repr

structure CommandUpdPrice where
  Status : Nat
  Unused : Nat
  Price : Int
  Conf : Nat
  PubSlot : Nat
deriving DecidableEq, Repr

structure CommandUpdTest where
  Exponent : Int
  SlotDiff : List Int
  Price : List Int
  Conf : List Nat
deriving DecidableEq, Repr

/-- The typed payload of a decoded or built instruction (`impl` in Go is a
dynamically typed pointer; `none` models a `nil` payload). -/
inductive Payload
  | updProduct (c : CommandUpdProduct)
  | addPrice (c : CommandAddPrice)
  | initPrice (c : CommandInitPrice)
  | addPublisher (c : CommandAddPublisher)
  | delPublisher (c : CommandDelPublisher)
  | updPrice (c : CommandUpdPrice)
  | updTest (c : CommandUpdTest)
  | setMinPub (c : CommandSetMinPub)
deriving DecidableEq, Repr

/-- One byte of a signed 8-bit value, two's complement. -/
def i8byte (v : Int) : List Nat := [(v % (256 : Int)).toNat]

/-- Payload encoding, as `Instruction.Data` produces it: the custom
`MarshalBinary` for update-product, the generic little-endian struct
encoding for the rest. -/
def Payload.encode : Payload → Option (List Nat)
  | .updProduct c => attrsMarshal c.Attrs.pairs
  | .addPrice c => some (i32le c.Exponent ++ u32le c.PriceType)
  | .initPrice c => some (i32le c.Exponent ++ u32le c.PriceType)
  | .addPublisher c => some (key32le c.Publisher)
  | .delPublisher c => some (key32le c.Publisher)
  | .updPrice c =>
    some (u32le c.Status ++ u32le c.Unused ++ i64le c.Price ++ u64le c.Conf ++ u64le c.PubSlot)
  | .updTest c =>
    some (i32le c.Exponent ++ (c.SlotDiff.map i8byte).flatten ++
      (c.Price.map i64le).flatten ++ (c.Conf.map u64le).flatten)
  | .setMinPub c => some (u8 c.MinPub)

/-- One account reference: key plus signer/writable tags. -/
structure AccountMeta where
  PubKey : Nat
  IsSigner : Bool
  IsWritable : Bool
deriving DecidableEq, Repr

structure Instruction where
  programKey : Nat
  accounts : List AccountMeta
  header : CommandHeader
  payload : Option Payload
deriving DecidableEq, Repr

/-- Go `Instruction.Data`: header bytes followed by the payload encoding. -/
def Instruction.Data (inst : Instruction) : Option (List Nat) :=
  match inst.payload with
  | none => some (u32le inst.header.Version ++ i32le inst.header.Cmd)
  | some p =>
    match p.encode with
    | none => none
    | some pb => some (u32le inst.header.Version ++ i32le inst.header.Cmd ++ pb)

inductive InsDecodeError
  | headerFail
  | notValidInstruction
  | unsupported (cmd : Int)
  | wrongAccountCount (expected actual : Nat) (cmd : Int)
  | payloadFail (cmd : Int)
  | superfluousBytes (rem : Nat) (cmd : Int)
deriving DecidableEq, Repr

/-- Payload shape selected by the decode switch. -/
inductive PayloadKind
  | noPayload
  | pUpdProduct
  | pAddPrice
  | pAddPublisher
  | pDelPublisher
  | pUpdPrice
  | pUpdTest
  | pSetMinPub
deriving DecidableEq, Repr

/-- The decode switch of `DecodeInstruction`: fixed account arity and
payload shape per command.  Note: the update-product case demands 3
accounts and the init-price case allocates no payload (`impl` stays
`nil`). -/
def cmdInfo (cmd : Int) : Option (Nat × PayloadKind) :=
  if cmd = Instruction_InitMapping then some (2, .noPayload)
  else if cmd = Instruction_AddMapping then some (3, .noPayload)
  else if cmd = Instruction_AddProduct then some (3, .noPayload)
  else if cmd = Instruction_UpdProduct then some (3, .pUpdProduct)
  else if cmd = Instruction_AddPrice then some (3, .pAddPrice)
  else if cmd = Instruction_AddPublisher then some (2, .pAddPublisher)
  else if cmd = Instruction_DelPublisher then some (2, .pDelPublisher)
  else if cmd = Instruction_UpdPrice then some (3, .pUpdPrice)
  else if cmd = Instruction_UpdPriceNoFailOnError then some (3, .pUpdPrice)
  else if cmd = Instruction_AggPrice then some (3, .noPayload)
  else if cmd = Instruction_InitPrice then some (2, .noPayload)
  else if cmd = Instruction_InitTest then some (2, .noPayload)
  else if cmd = Instruction_UpdTest then some (2, .pUpdTest)
  else if cmd = Instruction_SetMinPub then some (2, .pSetMinPub)
  else none

/-- Read `n` records with the given field reader (array field decode). -/
def readList {α : Type} (rd : List Nat → Option (α × List Nat)) :
    Nat → List Nat → Option (List α × List Nat)
  | 0, d => some ([], d)
  | n + 1, d =>
    match rd d with
    | none => none
    | some (x, d1) =>
      match readList rd n d1 with
      | none => none
      | some (xs, d2) => some (x :: xs, d2)

def readI8 (d : List Nat) : Option (Int × List Nat) :=
  match d with
  | [] => none
  | b :: r => some (if b < 128 then (b : Int) else (b : Int) - 256, r)

def readU8 (d : List Nat) : Option (Nat × List Nat) :=
  match d with
  | [] => none
  | b :: r => some (b, r)

/-- Decode the fixed-size payload of a command together with the generic
decoder's leftover check; `rest` is everything after the 8-byte header. -/
def decodePayloadFixed (cmd : Int) (kind : PayloadKind) (rest : List Nat) :
    Except InsDecodeError (Option Payload) :=
  match kind with
  | .noPayload => .ok none
  | .pUpdProduct =>
    -- custom UnmarshalBinary: attrs decode plus full-consumption check
    match ReadAttrsMapFromBinary rest with
    | none => .error (.payloadFail cmd)
    | some (prs, n) =>
      if n ≠ rest.length then .error (.payloadFail cmd)
      else .ok (some (.updProduct ⟨⟨prs⟩⟩))
  | .pAddPrice =>
    match readI32 rest with
    | none => .error (.payloadFail cmd)
    | some (e, d1) =>
      match readU32 d1 with
      | none => .error (.payloadFail cmd)
      | some (t, d2) =>
        if d2.length ≠ 0 then .error (.superfluousBytes d2.length cmd)
        else .ok (some (.addPrice ⟨e, t⟩))
  | .pAddPublisher =>
    match readKey rest with
    | none => .error (.payloadFail cmd)
    | some (p, d1) =>
      if d1.length ≠ 0 then .error (.superfluousBytes d1.length cmd)
      else .ok (some (.addPublisher ⟨p⟩))
  | .pDelPublisher =>
    match readKey rest with
    | none => .error (.payloadFail cmd)
    | some (p, d1) =>
      if d1.length ≠ 0 then .error (.superfluousBytes d1.length cmd)
      else .ok (some (.delPublisher ⟨p⟩))
  | .pUpdPrice =>
    match readU32 rest with
    | none => .error (.payloadFail cmd)
    | some (status, d1) =>
    match readU32 d1 with
    | none => .error (.payloadFail cmd)
    | some (unused, d2) =>
    match readI64 d2 with
    | none => .error (.payloadFail cmd)
    | some (price, d3) =>
    match readU64 d3 with
    | none => .error (.payloadFail cmd)
    | some (conf, d4) =>
    match readU64 d4 with
    | none => .error (.payloadFail cmd)
    | some (pubSlot, d5) =>
      if d5.length ≠ 0 then .error (.superfluousBytes d5.length cmd)
      else .ok (some (.updPrice ⟨status, unused, price, conf, pubSlot⟩))
  | .pUpdTest =>
    match readI32 rest with
    | none => .error (.payloadFail cmd)
    | some (e, d1) =>
    match readList readI8 32 d1 with
    | none => .error (.payloadFail cmd)
    | some (slotDiff, d2) =>
    match readList readI64 32 d2 with
    | none => .error (.payloadFail cmd)
    | some (price, d3) =>
    match readList readU64 32 d3 with
    | none => .error (.payloadFail cmd)
    | some (conf, d4) =>
      if d4.length ≠ 0 then .error (.superfluousBytes d4.length cmd)
      else .ok (some (.updTest ⟨e, slotDiff, price, conf⟩))
  | .pSetMinPub =>
    match readU8 rest with
    | none => .error (.payloadFail cmd)
    | some (m, d1) =>
      if d1.length ≠ 0 then .error (.superfluousBytes d1.length cmd)
      else .ok (some (.setMinPub ⟨m⟩))

/-- Go `DecodeInstruction` (`instructions.go`). -/
def DecodeInstruction (programKey : Nat) (accounts : List AccountMeta)
    (data : List Nat) : Except InsDecodeError Instruction :=
  match readU32 data with
  | none => .error .headerFail
  | some (version, d1) =>
    match readI32 d1 with
    | none => .error .headerFail
    | some (cmd, rest) =>
      let hdr : CommandHeader := ⟨version, cmd⟩
      if ¬ hdr.Valid then .error .notValidInstruction
      else
        match cmdInfo cmd with
        | none => .error (.unsupported cmd)
        | some (numAccounts, kind) =>
          if accounts.length ≠ numAccounts then
            .error (.wrongAccountCount numAccounts accounts.length cmd)
          else
            match decodePayloadFixed cmd kind rest with
            | .error e => .error e
            | .ok payload => .ok ⟨programKey, accounts, hdr, payload⟩

/-! ### Instruction builder (`builder.go`) -/

/-- Go `solana.Meta(k).SIGNER().WRITE()` and friends. -/
def meta (k : Nat) (signer writable : Bool) : AccountMeta := ⟨k, signer, writable⟩

/-- The `SysvarC1ock11111111111111111111111111111111` account key (an
opaque fixed key; only its identity matters here). -/
def SysVarClockPubkey : Nat := 1111

structure InstructionBuilder where
  programKey : Nat
deriving DecidableEq, Repr

def InstructionBuilder.InitMapping (i : InstructionBuilder)
    (fundingKey mappingKey : Nat) : Instruction :=
  ⟨i.programKey, [meta fundingKey true true, meta mappingKey true true],
   makeCommandHeader Instruction_InitMapping, none⟩

def InstructionBuilder.AddMapping (i : InstructionBuilder)
    (fundingKey tailMappingKey newMappingKey : Nat) : Instruction :=
  ⟨i.programKey,
   [meta fundingKey true true, meta tailMappingKey true true, meta newMappingKey true true],
   makeCommandHeader Instruction_AddMapping, none⟩

def InstructionBuilder.AddProduct (i : InstructionBuilder)
    (fundingKey mappingKey productKey : Nat) : Instruction :=
  ⟨i.programKey,
   [meta fundingKey true true, meta mappingKey true true, meta productKey true true],
   makeCommandHeader Instruction_AddProduct, none⟩

/-- Go `UpdProduct` builds with exactly two account references. -/
def InstructionBuilder.UpdProduct (i : InstructionBuilder)
    (fundingKey productKey : Nat) (payload : CommandUpdProduct) : Instruction :=
  ⟨i.programKey, [meta fundingKey true true, meta productKey true true],
   makeCommandHeader Instruction_UpdProduct, some (.updProduct payload)⟩

def InstructionBuilder.AddPrice (i : InstructionBuilder)
    (fundingKey productKey priceKey : Nat) (payload : CommandAddPrice) : Instruction :=
  ⟨i.programKey,
   [meta fundingKey true true, meta productKey true true, meta priceKey true true],
   makeCommandHeader Instruction_AddPrice, some (.addPrice payload)⟩

def InstructionBuilder.AddPublisher (i : InstructionBuilder)
    (fundingKey priceKey : Nat) (payload : CommandAddPublisher) : Instruction :=
  ⟨i.programKey, [meta fundingKey true true, meta priceKey true true],
   makeCommandHeader Instruction_AddPublisher, some (.addPublisher payload)⟩

def InstructionBuilder.DelPublisher (i : InstructionBuilder)
    (fundingKey priceKey : Nat) (payload : CommandDelPublisher) : Instruction :=
  ⟨i.programKey, [meta fundingKey true true, meta priceKey true true],
   makeCommandHeader Instruction_DelPublisher, some (.delPublisher payload)⟩

def InstructionBuilder.UpdPrice (i : InstructionBuilder)
    (fundingKey priceKey : Nat) (payload : CommandUpdPrice) : Instruction :=
  ⟨i.programKey,
   [meta fundingKey true true, meta priceKey false true, meta SysVarClockPubkey false false],
   makeCommandHeader Instruction_UpdPrice, some (.updPrice payload)⟩

def InstructionBuilder.AggPrice (i : InstructionBuilder)
    (fundingKey priceKey : Nat) : Instruction :=
  ⟨i.programKey,
   [meta fundingKey true true, meta priceKey false true, meta SysVarClockPubkey false false],
   makeCommandHeader Instruction_AggPrice, none⟩

/-- Go `InitPrice` builds with a payload that the decoder will not decode. -/
def InstructionBuilder.InitPrice (i : InstructionBuilder)
    (fundingKey priceKey : Nat) (payload : CommandInitPrice) : Instruction :=
  ⟨i.programKey, [meta fundingKey true true, meta priceKey true true],
   makeCommandHeader Instruction_InitPrice, some (.initPrice payload)⟩

def InstructionBuilder.InitTest (i : InstructionBuilder)
    (fundingKey testKey : Nat) : Instruction :=
  ⟨i.programKey, [meta fundingKey true true, meta testKey true true],
   makeCommandHeader Instruction_InitTest, none⟩

def InstructionBuilder.UpdTest (i : InstructionBuilder)
    (fundingKey testKey : Nat) (payload : CommandUpdTest) : Instruction :=
  ⟨i.programKey, [meta fundingKey true true, meta testKey true true],
   makeCommandHeader Instruction_UpdTest, some (.updTest payload)⟩

def InstructionBuilder.SetMinPub (i : InstructionBuilder)
    (fundingKey priceKey : Nat) (payload : CommandSetMinPub) : Instruction :=
  ⟨i.programKey, [meta fundingKey true true, meta priceKey true true],
   makeCommandHeader Instruction_SetMinPub, some (.setMinPub payload)⟩

/-- Claim C1: the build / encode / decode round-trip does NOT hold for
every command.  The built update-product instruction carries 2 account
references but the decoder demands 3, so decoding its own encoding with
its own account list fails; and the built init-price instruction decodes
back with no payload, not equal to the built value. -/
theorem instruction_roundtrip_fails :
    (((InstructionBuilder.mk 9).UpdProduct 5 6 ⟨⟨[]⟩⟩).Data =
        some [2, 0, 0, 0, 3, 0, 0, 0] ∧
      DecodeInstruction 9 ((InstructionBuilder.mk 9).UpdProduct 5 6 ⟨⟨[]⟩⟩).accounts
          [2, 0, 0, 0, 3, 0, 0, 0] =
        .error (.wrongAccountCount 3 2 Instruction_UpdProduct)) ∧
    (((InstructionBuilder.mk 9).InitPrice 5 6 ⟨1, 1⟩).Data =
        some [2, 0, 0, 0, 10, 0, 0, 0, 1, 0, 0, 0, 1, 0, 0, 0] ∧
      DecodeInstruction 9 ((InstructionBuilder.mk 9).InitPrice 5 6 ⟨1, 1⟩).accounts
          [2, 0, 0, 0, 10, 0, 0, 0, 1, 0, 0, 0, 1, 0, 0, 0] =
        .ok ⟨9, ((InstructionBuilder.mk 9).InitPrice 5 6 ⟨1, 1⟩).accounts,
             makeCommandHeader Instruction_InitPrice, none⟩ ∧
      (⟨9, ((InstructionBuilder.mk 9).InitPrice 5 6 ⟨1, 1⟩).accounts,
         makeCommandHeader Instruction_InitPrice, none⟩ : Instruction) ≠
        (InstructionBuilder.mk 9).InitPrice 5 6 ⟨1, 1⟩) := by
  refine ⟨⟨by decide, by decide⟩, by decide, by decide, by decide⟩

/-- Claim C2: decoding an update-product instruction with 2 account
references and a well-formed (empty) payload fails with the account-count
error naming expected count 3 and actual count 2 — the decoder's arity
for update-product is 3, not 2 as the spec and the repository's own test
state. -/
theorem updProduct_two_accounts_rejected :
    DecodeInstruction 9 [meta 5 true true, meta 6 true true]
        [2, 0, 0, 0, 3, 0, 0, 0] =
      .error (.wrongAccountCount 3 2 Instruction_UpdProduct) ∧
    ReadAttrsMapFromBinary ([] : List Nat) = some ([], 0) := by
  exact ⟨by decide, by decide⟩

/-! ## Event dispatcher diff logic (`stream.go`, `HasChanged`)

`callbackRegistration.previousInfo` is a nullable pointer, `nil` before
the first delivery — modelled as `Option PriceInfo`.  `inform` is always
called with a non-nil `newInfo` (`&acc.Agg` or `&comp.Latest`). -/

/-- Go `PriceInfo.HasChanged` as evaluated inside `inform`: the Go expression
is `(p == nil) != (other == nil) || p.Status != other.Status ||
p.PubSlot != other.PubSlot` with short-circuit evaluation and a non-nil
`other`. -/
def hasChanged (p : Option PriceInfo) (other : PriceInfo) : Bool :=
  match p with
  | none => true
  | some q => q.Status != other.Status || q.PubSlot != other.PubSlot

/-- Go `callbackRegistration.inform`: whether the callback fires, and the
updated `previousInfo` (unconditionally overwritten with the new info). -/
def inform (previousInfo : Option PriceInfo) (newInfo : PriceInfo) :
    Bool × Option PriceInfo :=
  (hasChanged previousInfo newInfo, some newInfo)

/-- Claim C8: the first update delivered to a registration always fires
(no prior info recorded, and the new info is recorded); an update with the
same status and publishing slot as the recorded one never fires, even when
price or confidence differ; an update with the same status but a different
publishing slot always fires. -/
theorem dispatcher_diff_semantics :
    (∀ i : PriceInfo, (inform none i).1 = true ∧ (inform none i).2 = some i) ∧
    (∀ i j : PriceInfo, j.Status = i.Status → j.PubSlot = i.PubSlot →
      (inform (some i) j).1 = false) ∧
    (∀ i j : PriceInfo, j.Status = i.Status → j.PubSlot ≠ i.PubSlot →
      (inform (some i) j).1 = true) := by
  refine ⟨fun i => ⟨rfl, rfl⟩, ?_, ?_⟩
  · intro i j hs hp
    simp [inform, hasChanged, hs, hp]
  · intro i j hs hp
    simp [inform, hasChanged, hs, bne_iff_ne]
    exact fun hc => absurd hc.symm hp

/-- Witness for C8 at concrete infos: a price/confidence-only change at
the same slot and status does not fire; a slot change fires. -/
theorem dispatcher_diff_semantics_witness :
    ((inform none ⟨100, 5, 1, 0, 7⟩).1 = true ∧
      (inform none ⟨100, 5, 1, 0, 7⟩).2 = some ⟨100, 5, 1, 0, 7⟩) ∧
    (inform (some ⟨100, 5, 1, 0, 7⟩) ⟨999, 8, 1, 0, 7⟩).1 = false ∧
    (inform (some ⟨100, 5, 1, 0, 7⟩) ⟨100, 5, 1, 0, 8⟩).1 = true := by
  refine ⟨dispatcher_diff_semantics.1 ⟨100, 5, 1, 0, 7⟩, ?_, ?_⟩
  · exact dispatcher_diff_semantics.2.1 ⟨100, 5, 1, 0, 7⟩ ⟨999, 8, 1, 0, 7⟩ rfl rfl
  · exact dispatcher_diff_semantics.2.2 ⟨100, 5, 1, 0, 7⟩ ⟨100, 5, 1, 0, 8⟩ rfl (by decide)

/-! ## `PriceUpdate.Previous` / `Current` (`stream.go`) -/

/-- A `shopspring/decimal` value as produced by `decimal.New(value, exp)`:
the represented number is `value × 10^exp`.  The zero value of the type is
decimal zero. -/
structure Decimal where
  value : Int
  exp : Int
deriving DecidableEq, Repr

def Decimal.zero : Decimal := ⟨0, 0⟩

def PriceInfo.zeroInfo : PriceInfo := ⟨0, 0, 0, 0, 0⟩

/-- Go `PriceInfo.Value`: price and confidence as decimals at the account's
exponent; `ok` iff the status is trading.  The Go `int64(p.Conf)`
reinterprets the unsigned confidence. -/
def PriceInfo.Value (p : PriceInfo) (exponent : Int) : Decimal × Decimal × Bool :=
  (⟨p.Price, exponent⟩, ⟨toInt64 p.Conf, exponent⟩, p.Status == PriceStatusTrading)

structure PriceUpdate where
  Account : Option PriceAccount
  PreviousInfo : Option PriceInfo
  CurrentInfo : Option PriceInfo
deriving DecidableEq, Repr

/-- Go `PriceUpdate.Previous`: the Go body guards on
`!p.PreviousInfo.IsZero() && p.Account != nil` and computes
`p.PreviousInfo.Value(p.Account.Exponent)` inside the guard, but lacks a
`return`: the named return values are never assigned, so the zero values
(`0, 0, false`) are returned on every path. -/
def PriceUpdate.Previous (p : PriceUpdate) : Decimal × Decimal × Bool :=
  match p.PreviousInfo, p.Account with
  | some info, some _ =>
    if info == PriceInfo.zeroInfo then (Decimal.zero, Decimal.zero, false)
    else
      -- the computed Value is discarded here in the Go code
      (Decimal.zero, Decimal.zero, false)
  | _, _ => (Decimal.zero, Decimal.zero, false)

/-- Go `PriceUpdate.Current`: same guard, but the value IS returned. -/
def PriceUpdate.Current (p : PriceUpdate) : Decimal × Decimal × Bool :=
  match p.CurrentInfo, p.Account with
  | some info, some acc =>
    if info == PriceInfo.zeroInfo then (Decimal.zero, Decimal.zero, false)
    else info.Value acc.Exponent
  | _, _ => (Decimal.zero, Decimal.zero, false)

/-- Claim C10: `Previous` returns zero price, zero confidence and
`ok = false` for every update — regardless of the previous info's
presence, status or price — while `Current` returns the real converted value
whenever the current info is present and nonzero and the account is
present. -/
theorem previous_discards_value (u : PriceUpdate) :
    u.Previous = (Decimal.zero, Decimal.zero, false) ∧
    (∀ (info : PriceInfo) (acc : PriceAccount),
      u.CurrentInfo = some info → u.Account = some acc →
      info ≠ PriceInfo.zeroInfo →
      u.Current = info.Value acc.Exponent) := by
  constructor
  · unfold PriceUpdate.Previous
    cases u.PreviousInfo with
    | none => rfl
    | some info =>
      cases u.Account with
      | none => rfl
      | some acc =>
        dsimp only
        split <;> rfl
  · intro info acc hinfo hacc hne
    unfold PriceUpdate.Current
    rw [hinfo, hacc]
    dsimp only
    rw [if_neg (by simpa using hne)]

/-- A concrete price account for the C10 witness (exponent -5). -/
def c10Account : PriceAccount :=
  ⟨⟨Magic, V2, AccountTypePrice, 3312⟩, 1, -5, 0, 0, 0, 0, ⟨0, 0, 0⟩, ⟨0, 0, 0⟩,
   0, 0, 0, 0, 0, 0, 0, 0, ⟨112717, 6, 1, 0, 117491487⟩, []⟩

/-- Witness for C10: a previous info with trading status and nonzero
price still yields `(0, 0, false)` from `Previous`, while `Current` on
the same update returns the real value. -/
theorem previous_discards_value_witness :
    (PriceUpdate.mk (some c10Account) (some ⟨112000, 5, 1, 0, 117491480⟩)
        (some ⟨112717, 6, 1, 0, 117491487⟩)).Previous =
      (Decimal.zero, Decimal.zero, false) ∧
    (PriceUpdate.mk (some c10Account) (some ⟨112000, 5, 1, 0, 117491480⟩)
        (some ⟨112717, 6, 1, 0, 117491487⟩)).Current =
      PriceInfo.Value ⟨112717, 6, 1, 0, 117491487⟩ (-5) := by
  constructor
  · exact (previous_discards_value _).1
  · exact (previous_discards_value _).2 ⟨112717, 6, 1, 0, 117491487⟩ c10Account
      rfl rfl (by decide)

/-! ## Linked-list traversals (`query.go`)

The external batched fetch capability (JSON-RPC `getAccountInfo` /
`getMultipleAccounts` followed by `UnmarshalBinary`) is modelled as a
lookup into the chain state: a function for the mapping traversal, a
finite association list for the price traversal.  A `none` lookup covers
both fetch and decode failures, which abort the bulk call (returning the
partial results together with the error). -/

/-- Safety cap on the mapping account list length (`maxAccounts`). -/
def maxMappingAccounts : Nat := 128

/-- The loop of `GetAllProductKeys`
(`for i := 0; i < maxAccounts && !next.IsZero(); i++`), structurally
recursive on the remaining iteration budget.  Returns the accumulated
product keys, the number of mapping accounts fetched, and whether the
walk ended in an error. -/
def getAllProductKeysLoop (fetch : Nat → Option MappingAccount) :
    Nat → Nat → List Nat × Nat × Bool
  | 0, _ => ([], 0, false)
  | budget + 1, next =>
    if next == 0 then ([], 0, false)
    else
      match fetch next with
      | none => ([], 1, true)
      | some acc =>
        let r := getAllProductKeysLoop fetch budget acc.Next
        (acc.ProductKeys ++ r.1, r.2.1 + 1, r.2.2)

def GetAllProductKeys (fetch : Nat → Option MappingAccount) (root : Nat) :
    List Nat × Nat × Bool :=
  getAllProductKeysLoop fetch maxMappingAccounts root

theorem getAllProductKeysLoop_visits_le (fetch : Nat → Option MappingAccount) :
    ∀ (budget next : Nat), (getAllProductKeysLoop fetch budget next).2.1 ≤ budget := by
  intro budget
  induction budget with
  | zero => intro next; simp [getAllProductKeysLoop]
  | succ budget ih =>
    intro next
    simp only [getAllProductKeysLoop]
    split
    · simp
    · cases fetch next with
      | none => simp
      | some acc =>
        have := ih acc.Next
        simp only
        omega

/-- Go `lookupAcc`: the decoded price account stored at a key. -/
def lookupAcc (store : List (Nat × PriceAccount)) (k : Nat) : Option PriceAccount :=
  match store.find? (fun e => e.1 == k) with
  | none => none
  | some e => some e.2

/-- Result of one fetched page (`getPriceAccountsPage`). -/
structure PageResult where
  entries : List (Nat × PriceAccount)
  enqueued : List Nat
  seen : List Nat
  ok : Bool
deriving DecidableEq, Repr

/-- Go `getPriceAccountsPage`: walk the batch in order; for each account,
append its `Next` key to the out-queue when it is nonzero and not yet in
the seen set, and mark it seen.  A missing/undecodable account aborts the
page, keeping the entries accumulated so far. -/
def pricePage (store : List (Nat × PriceAccount)) :
    List Nat → List Nat → PageResult
  | [], seen => ⟨[], [], seen, true⟩
  | k :: ks, seen =>
    match lookupAcc store k with
    | none => ⟨[], [], seen, false⟩
    | some acc =>
      let enq : List Nat :=
        if acc.Next ≠ 0 ∧ ¬ seen.contains acc.Next then [acc.Next] else []
      let r := pricePage store ks (seen ++ enq)
      ⟨(k, acc) :: r.entries, enq ++ r.enqueued, r.seen, r.ok⟩

/-- Result of the whole recursive retrieval.  `completed = true` means the
loop terminated by exhausting the queue or by an abort, not by running out
of the fuel bound. -/
structure LoopResult where
  entries : List (Nat × PriceAccount)
  enqueued : List Nat
  completed : Bool
deriving DecidableEq, Repr

/-- The `for len(priceKeys) > 0` loop of `GetPriceAccountsRecursive`:
fetch the next batch of at most `batchSize` keys, then continue with the
remaining keys plus the keys the page enqueued. -/
def priceLoop (store : List (Nat × PriceAccount)) (batchSize : Nat) :
    Nat → List Nat → List Nat → LoopResult
  | 0, _, _ => ⟨[], [], false⟩
  | fuel + 1, pending, seen =>
    if pending.isEmpty then ⟨[], [], true⟩
    else
      let pg := pricePage store (pending.take batchSize) seen
      if pg.ok then
        let r := priceLoop store batchSize fuel (pending.drop batchSize ++ pg.enqueued) pg.seen
        ⟨pg.entries ++ r.entries, pg.enqueued ++ r.enqueued, r.completed⟩
      else ⟨pg.entries, pg.enqueued, true⟩

/-- The next-pointer values present in the chain state. -/
def nextKeys (store : List (Nat × PriceAccount)) : List Nat :=
  (store.map (fun e => e.2.Next)).dedup

/-- Fuel that always suffices: one loop iteration per initial pending key
plus one per distinct next-pointer value, plus one. -/
def priceFuel (store : List (Nat × PriceAccount)) (pending : List Nat) : Nat :=
  pending.length + (nextKeys store).length + 1

/-- Go `GetPriceAccountsRecursive`: seen set starts empty. -/
def GetPriceAccountsRecursive (store : List (Nat × PriceAccount)) (batchSize : Nat)
    (priceKeys : List Nat) : LoopResult :=
  priceLoop store batchSize (priceFuel store priceKeys) priceKeys []

theorem pricePage_spec (store : List (Nat × PriceAccount)) :
    ∀ (batch seen : List Nat),
      (pricePage store batch seen).seen = seen ++ (pricePage store batch seen).enqueued ∧
      (pricePage store batch seen).enqueued.Nodup ∧
      (∀ x ∈ (pricePage store batch seen).enqueued, x ∉ seen) ∧
      (∀ x ∈ (pricePage store batch seen).enqueued,
        x ∈ store.map (fun e => e.2.Next)) := by
  intro batch
  induction batch with
  | nil => intro seen; refine ⟨by simp [pricePage], by simp [pricePage], ?_, ?_⟩ <;>
      simp [pricePage]
  | cons k ks ih =>
    intro seen
    simp only [pricePage]
    cases hk : lookupAcc store k with
    | none => refine ⟨by simp, by simp, ?_, ?_⟩ <;> simp
    | some acc =>
      dsimp only
      obtain ⟨ihseen, ihnodup, ihfresh, ihmem⟩ := ih (seen ++
        (if acc.Next ≠ 0 ∧ ¬ seen.contains acc.Next then [acc.Next] else []))
      have hnextmem : acc.Next ∈ store.map (fun e => e.2.Next) := by
        unfold lookupAcc at hk
        cases hfind : store.find? (fun e => e.1 == k) with
        | none => rw [hfind] at hk; exact absurd hk (by simp)
        | some e =>
          rw [hfind] at hk
          simp only [Option.some.injEq] at hk
          subst hk
          exact List.mem_map.mpr ⟨e, List.mem_of_find?_eq_some hfind, rfl⟩
      refine ⟨?_, ?_, ?_, ?_⟩
      · rw [ihseen, List.append_assoc]
      · rw [List.nodup_append]
        refine ⟨?_, ihnodup, ?_⟩
        · split <;> simp
        · intro a ha har
          exact ihfresh a har (List.mem_append.mpr (Or.inr ha))
      · intro x hx
        rcases List.mem_append.mp hx with hx1 | hx2
        · split at hx1
          · rename_i hcond
            simp only [List.mem_singleton] at hx1
            subst hx1
            intro hmem
            exact hcond.2 (List.elem_eq_true_of_mem hmem)
          · exact absurd hx1 (by simp)
        · intro hmem
          exact ihfresh x hx2 (List.mem_append.mpr (Or.inl hmem))
      · intro x hx
        rcases List.mem_append.mp hx with hx1 | hx2
        · split at hx1
          · simp only [List.mem_singleton] at hx1
            subst hx1
            exact hnextmem
          · exact absurd hx1 (by simp)
        · exact ihmem x hx2

theorem priceLoop_enq_nodup (store : List (Nat × PriceAccount)) (B : Nat) :
    ∀ (fuel : Nat) (pending seen : List Nat),
      (priceLoop store B fuel pending seen).enqueued.Nodup ∧
      (∀ x ∈ (priceLoop store B fuel pending seen).enqueued, x ∉ seen) := by
  intro fuel
  induction fuel with
  | zero =>
    intro pending seen
    exact ⟨List.nodup_nil, by simp [priceLoop]⟩
  | succ fuel ih =>
    intro pending seen
    simp only [priceLoop]
    split
    · exact ⟨List.nodup_nil, by simp⟩
    · obtain ⟨pseen, pnodup, pfresh, -⟩ := pricePage_spec store (pending.take B) seen
      split
      · obtain ⟨rnodup, rfresh⟩ := ih
          (pending.drop B ++ (pricePage store (pending.take B) seen).enqueued)
          (pricePage store (pending.take B) seen).seen
        constructor
        · rw [List.nodup_append]
          refine ⟨pnodup, rnodup, ?_⟩
          intro a ha har
          have hnot := rfresh a har
          rw [pseen] at hnot
          exact hnot (List.mem_append.mpr (Or.inr ha))
        · intro x hx
          rcases List.mem_append.mp hx with h1 | h2
          · exact pfresh x h1
          · have hnot := rfresh x h2
            rw [pseen] at hnot
            intro hmem
            exact hnot (List.mem_append.mpr (Or.inl hmem))
      · exact ⟨pnodup, pfresh⟩

/-- Count of next-pointer values not yet in the seen set: the potential
for future enqueues. -/
def notSeenCard (store : List (Nat × PriceAccount)) (seen : List Nat) : Nat :=
  ((nextKeys store).toFinset \ seen.toFinset).card

theorem priceLoop_completes (store : List (Nat × PriceAccount)) (B : Nat)
    (hB : 1 ≤ B) :
    ∀ (fuel : Nat) (pending seen : List Nat),
      pending.length + notSeenCard store seen < fuel →
      (priceLoop store B fuel pending seen).completed = true := by
  intro fuel
  induction fuel with
  | zero => intro pending seen h; omega
  | succ fuel ih =>
    intro pending seen h
    simp only [priceLoop]
    split
    · rfl
    · rename_i hpend
      obtain ⟨pseen, pnodup, pfresh, pmem⟩ := pricePage_spec store (pending.take B) seen
      split
      · dsimp only
        apply ih
        -- the decrease of the termination measure
        have hsub : ((pricePage store (pending.take B) seen).enqueued.toFinset :
            Finset Nat) ⊆ (nextKeys store).toFinset \ seen.toFinset := by
          intro a ha
          rw [List.mem_toFinset] at ha
          rw [Finset.mem_sdiff, List.mem_toFinset, List.mem_toFinset]
          refine ⟨?_, pfresh a ha⟩
          unfold nextKeys
          rw [List.mem_dedup]
          exact pmem a ha
        have hcardenq : ((pricePage store (pending.take B) seen).enqueued.toFinset :
            Finset Nat).card = (pricePage store (pending.take B) seen).enqueued.length :=
          List.toFinset_card_of_nodup pnodup
        have hset : ((nextKeys store).toFinset \
              ((pricePage store (pending.take B) seen).seen).toFinset : Finset Nat) =
            ((nextKeys store).toFinset \ seen.toFinset) \
              ((pricePage store (pending.take B) seen).enqueued).toFinset := by
          rw [pseen, List.toFinset_append]
          ext a
          simp only [Finset.mem_sdiff, Finset.mem_union]
          tauto
        have hcard : notSeenCard store (pricePage store (pending.take B) seen).seen =
            notSeenCard store seen -
              (pricePage store (pending.take B) seen).enqueued.length := by
          unfold notSeenCard
          rw [hset, Finset.card_sdiff hsub, hcardenq]
        have hle : (pricePage store (pending.take B) seen).enqueued.length ≤
            notSeenCard store seen := by
          rw [← hcardenq]
          exact Finset.card_le_card hsub
        have hplen : (pending.drop B).length = pending.length - B := List.length_drop B pending
        have hpendpos : 1 ≤ pending.length := by
          cases pending with
          | nil => simp at hpend
          | cons a l => simp
        rw [List.length_append, hplen, hcard]
        omega
      · rfl

/-- Claim C9: for every chain state, also one whose next-pointers form a
cycle, both traversals terminate with a bounded result: the mapping walk
fetches at most 128 mapping accounts, and the price walk runs to
completion within the fuel bound without ever enqueueing the same key
twice (the seen set blocks re-enqueueing). -/
theorem traversals_cycle_safe :
    (∀ (fetch : Nat → Option MappingAccount) (root : Nat),
        (GetAllProductKeys fetch root).2.1 ≤ maxMappingAccounts) ∧
    (∀ (store : List (Nat × PriceAccount)) (batchSize : Nat) (priceKeys : List Nat),
        1 ≤ batchSize →
        (GetPriceAccountsRecursive store batchSize priceKeys).completed = true ∧
        (GetPriceAccountsRecursive store batchSize priceKeys).enqueued.Nodup) := by
  constructor
  · intro fetch root
    exact getAllProductKeysLoop_visits_le fetch maxMappingAccounts root
  · intro store batchSize priceKeys hB
    constructor
    · apply priceLoop_completes store batchSize hB
      unfold priceFuel notSeenCard
      have h1 : ((nextKeys store).toFinset \ ([] : List Nat).toFinset).card ≤
          (nextKeys store).length := by
        calc ((nextKeys store).toFinset \ ([] : List Nat).toFinset).card
            ≤ (nextKeys store).toFinset.card := Finset.card_le_card (Finset.sdiff_subset)
          _ ≤ (nextKeys store).length := List.toFinset_card_le _
      omega
    · exact (priceLoop_enq_nodup store batchSize _ priceKeys []).1

/-- A minimal price account for the C9 witness, carrying only a
next-pointer. -/
def cycAccount (next : Nat) : PriceAccount :=
  ⟨⟨Magic, V2, AccountTypePrice, 3312⟩, 0, 0, 0, 0, 0, 0, ⟨0, 0, 0⟩, ⟨0, 0, 0⟩,
   0, 0, 0, next, 0, 0, 0, 0, ⟨0, 0, 0, 0, 0⟩, []⟩

/-- A two-element chain state whose next-pointers form a cycle 1 → 2 → 1. -/
def cycStore : List (Nat × PriceAccount) := [(1, cycAccount 2), (2, cycAccount 1)]

/-- Witness for C9 on the cyclic store with batch size 1: the traversal
completes and its enqueue trace is exactly `[2, 1]`, each key enqueued
once despite the cycle. -/
theorem traversals_cycle_safe_witness :
    (1 : Nat) ≤ 1 ∧
    (GetPriceAccountsRecursive cycStore 1 [1]).completed = true ∧
    (GetPriceAccountsRecursive cycStore 1 [1]).enqueued = [2, 1] ∧
    (GetPriceAccountsRecursive cycStore 1 [1]).enqueued.Nodup := by
  have h := traversals_cycle_safe.2 cycStore 1 [1] (by decide)
  exact ⟨by decide, h.1, by decide, h.2⟩

end Pyth
